import Mathlib

/-!
Shallow embedding of `src/components/directives/group.tsx` (Neurodesk/neurocontainers-ui).

The file contains three units of logic:
  * the simplified-parameter editor (`createGroupEditorComponent`): default
    parameter computation, per-field default fallback, single-field update,
    and the mount-time auto-initialization effect;
  * the module-level group-editor registry (`registerGroupEditor` /
    `getGroupEditor`, a JS `Map`);
  * the group list editor (`GroupDirectiveComponent`): add / remove / move /
    drag-and-drop reorder over an ordered sequence of directives, with
    transient UI state (drag indices, pending delete confirmation).

Directives are opaque to this component, so the embedding is parametric in
the element type `α`.  Every handler reports a whole new sequence through
`onChange`; we model a handler as a function returning the new transient
state together with `Option (List α)` — `some l` when `onChange(l)` is
invoked, `none` when it is not.

JS-semantics notes reflected in the embedding:
  * `arr.splice(i, 0, x)` clamps `i` to the array length (inserting past the
    end appends); we model it with `take`/`drop`, which clamp the same way.
  * `arr.splice(i, 1)` with `i` out of range removes nothing, matching
    `List.eraseIdx`.
  * reading `arr[i]` out of range yields `undefined`; the handlers below are
    only ever invoked by the UI with rendered indices `0 ≤ i < length`, and
    we model the read with `getD` (claims only quantify over in-range reads).
  * a JS object distinguishes an absent key from a key explicitly set to
    `undefined` (`'k' in o` vs `o.k !== undefined`); optional fields tested
    with `in` are therefore modelled as `Option (Option _)`: `none` = key
    absent, `some none` = key present holding `undefined`, `some (some v)` =
    key present with value `v`.
-/

namespace GroupUI

/-- Runtime values stored in a parameter mapping (`Record<string, unknown>`):
the component only ever stores strings, string lists and booleans. -/
inductive Value where
  | str (s : String)
  | list (l : List String)
  | bool (b : Bool)
deriving DecidableEq, Repr

/-- A JS object / `Map` used as a finite mapping, as an association list in
key-insertion order. -/
abbrev AssocMap (β : Type) := List (String × β)

/-- Lookup (`o[k]`, `map.get(k)`): first binding of the key, if any. -/
def assocGet {β : Type} (m : AssocMap β) (k : String) : Option β :=
  (m.find? (fun p => p.1 = k)).map (·.2)

/-- Update (`o[k] = v`, `{...o, [k]: v}`, `map.set(k, v)`): rebinds an
existing key in place (keys of a JS object / `Map` are unique, so the first
binding is the only one), otherwise appends the new binding; key-insertion
order is preserved either way. -/
def assocSet {β : Type} (m : AssocMap β) (k : String) (v : β) : AssocMap β :=
  match m with
  | [] => [(k, v)]
  | p :: rest => if p.1 = k then (k, v) :: rest else p :: assocSet rest k v

/-- Parameter mapping handed to `updateDirective` (`Record<string, unknown>`). -/
abbrev Params := AssocMap Value

/-- The type-specific part of `GroupEditorArgument`.  Each `defaultValue` is
`Option (Option _)`: outer `none` = the `defaultValue` key is absent from the
object, `some none` = present but `undefined`, `some (some v)` = value `v`. -/
inductive ArgShape where
  | dropdown (options : List String) (defaultValue : Option (Option String))
  | text (defaultValue : Option (Option String)) (multiline : Option Bool)
  | array (defaultValue : Option (Option (List String)))
  | boolean (defaultValue : Option (Option Bool))
deriving DecidableEq, Repr

/-- `GroupEditorArgument`: one field of an editor schema. -/
structure GroupEditorArgument where
  name : String
  required : Bool
  description : Option String
  advanced : Option Bool
  shape : ArgShape
deriving DecidableEq, Repr

/-- `getDefaultValue` (inside `renderArgument`): per-field fallback when the
current params have no binding.  Each branch requires `'defaultValue' in arg`
(outer `some`) before applying `??`; anything else — including a `boolean` or
`array` field whose `defaultValue` key is absent, and every `dropdown` —
falls through to `return ''`. -/
def getDefaultValue (arg : GroupEditorArgument) : Value :=
  match arg.shape with
  | .boolean (some dv) => .bool (dv.getD false)
  | .text (some dv) _ => .str (dv.getD "")
  | .array (some dv) => .list (dv.getD [])
  | _ => .str ""

/-- `currentValue` in `renderArgument`: `currentParams[arg.name] ?? getDefaultValue()`. -/
def currentValue (currentParams : Params) (arg : GroupEditorArgument) : Value :=
  (assocGet currentParams arg.name).getD (getDefaultValue arg)

/-- The test `'defaultValue' in arg && arg.defaultValue !== undefined` in
`getDefaultParams`, returning the declared default as a `Value` when it holds. -/
def declaredDefault (arg : GroupEditorArgument) : Option Value :=
  match arg.shape with
  | .dropdown _ (some (some v)) => some (.str v)
  | .text (some (some v)) _ => some (.str v)
  | .array (some (some v)) => some (.list v)
  | .boolean (some (some v)) => some (.bool v)
  | _ => none

/-- `getDefaultParams`: collects every argument's declared default into a
fresh object, skipping arguments without one. -/
def getDefaultParams (args : List GroupEditorArgument) : Params :=
  args.foldl
    (fun defaults arg =>
      match declaredDefault arg with
      | some v => assocSet defaults arg.name v
      | none => defaults)
    []

/-- The payload of a `GroupDirective`: an ordered sequence of directives. -/
structure GroupDirectiveVal (α : Type) where
  group : List α

/-- The logic-relevant part of a `GroupEditor`: its argument schema and its
pure `updateDirective` function (metadata and help renderer are
presentational and omitted). -/
structure GroupEditorDef (α : Type) where
  arguments : List GroupEditorArgument
  updateDirective : Params → GroupDirectiveVal α

/-- `currentParams` in the component body: custom params when non-empty,
otherwise the schema defaults. -/
def currentParamsOf {α : Type} (editorInfo : GroupEditorDef α) (customParams : Params) : Params :=
  if customParams.length > 0 then customParams else getDefaultParams editorInfo.arguments

/-- `updateParameter`: merge one key into the current params
(`{...currentParams, [key]: value}`), regenerate the directives, and report
`(updatedDirective.group, updatedParams)` upward. -/
def updateParameter {α : Type} (editorInfo : GroupEditorDef α) (currentParams : Params)
    (key : String) (value : Value) : List α × Params :=
  let updatedParams := assocSet currentParams key value
  let updatedDirective := editorInfo.updateDirective updatedParams
  (updatedDirective.group, updatedParams)

/-- The auto-initialization `useEffect`: given the `initializedRef` flag and
the supplied `customParams`, returns the upward report (if any) and the new
flag value.  It fires exactly when the flag is unset and the custom params
are empty, and then sets the flag. -/
def autoInitEffect {α : Type} (editorInfo : GroupEditorDef α) (initialized : Bool)
    (customParams : Params) : Option (List α × Params) × Bool :=
  if !initialized && customParams.length == 0 then
    let defaultParams := getDefaultParams editorInfo.arguments
    let updatedDirective := editorInfo.updateDirective defaultParams
    (some (updatedDirective.group, defaultParams), true)
  else
    (none, initialized)

/-- The module-level `groupEditors` registry.  `registerGroupEditor` also
registers a generated form component with the external directive registry;
that side effect is outside this module and not modelled. -/
abbrev Registry (β : Type) := AssocMap β

/-- `registerGroupEditor(name, editor)`: `groupEditors.set(name, editor)`. -/
def registerGroupEditor {β : Type} (m : Registry β) (name : String) (editor : β) : Registry β :=
  assocSet m name editor

/-- `getGroupEditor(name)`: `groupEditors.get(name)`, `none` when absent. -/
def getGroupEditor {β : Type} (m : Registry β) (name : String) : Option β :=
  assocGet m name

/-- A sequence of `registerGroupEditor` calls applied in order to a registry. -/
def applyRegistrations {β : Type} (regs : List (String × β)) (m : Registry β) : Registry β :=
  regs.foldl (fun acc p => registerGroupEditor acc p.1 p.2) m

/-! ### The group list editor (`GroupDirectiveComponent`) -/

/-- Transient per-instance state of the list editor: the four `useState`
values plus the `shouldScrollToNew` ref. -/
structure GroupState where
  isExpanded : Bool
  draggedIndex : Option Nat
  dragOverIndex : Option Nat
  deleteConfirmIndex : Option Nat
  shouldScrollToNew : Bool
deriving DecidableEq, Repr

/-- Initial state on mount: expanded, no drag, no pending delete. -/
def GroupState.initial : GroupState :=
  { isExpanded := true, draggedIndex := none, dragOverIndex := none,
    deleteConfirmIndex := none, shouldScrollToNew := false }

/-- `arr.splice(n, 0, a)`: insert `a` before index `n`, clamping `n` to the
length (past-the-end insertion appends, as in JS). -/
def jsSpliceInsert {α : Type} (n : Nat) (a : α) (l : List α) : List α :=
  l.take n ++ a :: l.drop n

/-- `handleDirectiveChange(index, updatedDirective)`: copy the group, assign
`updatedGroup[index] = updatedDirective`, report it.  No transient state
changes. -/
def handleDirectiveChange {α : Type} (group : List α) (index : Nat) (updatedDirective : α) :
    List α :=
  group.set index updatedDirective

/-- `addDirective(directive, index?)`: splice into a copy at `index` when
given, else push; remembers whether the insertion was an end-append in the
`shouldScrollToNew` ref; reports the new group. -/
def addDirective {α : Type} (s : GroupState) (group : List α) (directive : α)
    (index : Option Nat) : GroupState × List α :=
  let shouldScroll := match index with
    | none => true
    | some i => decide (i ≥ group.length)
  let updatedGroup := match index with
    | some i => jsSpliceInsert i directive group
    | none => group ++ [directive]
  ({ s with shouldScrollToNew := shouldScroll }, updatedGroup)

/-- `Array.prototype.filter` with the index callback, mirrored with an
explicit running index.  The index the callback sees is a JS number, so we
compare it as an integer (`removeDirective` can be handed any integer). -/
def filterIdxAux {α : Type} (p : Int → α → Bool) (n : Int) : List α → List α
  | [] => []
  | a :: l => if p n a then a :: filterIdxAux p (n + 1) l else filterIdxAux p (n + 1) l

/-- `removeDirective(index)`: reports `group.filter((_, i) => i !== index)`
and clears the pending-delete index.  Total over all integer indices. -/
def removeDirective {α : Type} (s : GroupState) (group : List α) (index : Int) :
    GroupState × List α :=
  ({ s with deleteConfirmIndex := none },
   filterIdxAux (fun i _ => i != index) 0 group)

/-- `cancelDelete`: clears the pending-delete index; calls no `onChange`
(the `Option (List α)` report component is always `none`). -/
def cancelDelete (α : Type) (s : GroupState) : GroupState × Option (List α) :=
  ({ s with deleteConfirmIndex := none }, none)

/-- The two `moveDirective` directions. -/
inductive MoveDirection where
  | up
  | down
deriving DecidableEq, Repr

/-- `moveDirective(index, direction)`: target index is `index ∓ 1`; out of
`[0, length)` is a no-op (`none` = no `onChange`); otherwise the destructuring
swap `[g[index], g[newIndex]] = [g[newIndex], g[index]]` reads both old values
first and writes them crosswise. -/
def moveDirective {α : Type} [Inhabited α] (group : List α) (index : Nat)
    (direction : MoveDirection) : Option (List α) :=
  let newIndex : Int := match direction with
    | .up => (index : Int) - 1
    | .down => (index : Int) + 1
  if newIndex < 0 ∨ (group.length : Int) ≤ newIndex then none
  else
    let j := newIndex.toNat
    some ((group.set index (group.getD j default)).set j (group.getD index default))

/-- `handleDrop(dropIndex)`: with no active drag or a drop onto the source
itself, clear both drag indices and do nothing else; otherwise remove the
dragged item, reinsert it at `dropIndex - 1` when the source was earlier
(accounting for the removal shift) or at `dropIndex` otherwise, report the
new group, and clear both drag indices. -/
def handleDrop {α : Type} [Inhabited α] (s : GroupState) (group : List α) (dropIndex : Nat) :
    GroupState × Option (List α) :=
  match s.draggedIndex with
  | none => ({ s with draggedIndex := none, dragOverIndex := none }, none)
  | some draggedIndex =>
    if draggedIndex = dropIndex then
      ({ s with draggedIndex := none, dragOverIndex := none }, none)
    else
      let draggedItem := group.getD draggedIndex default
      let removed := group.eraseIdx draggedIndex
      let insertIndex := if draggedIndex < dropIndex then dropIndex - 1 else dropIndex
      let updatedGroup := jsSpliceInsert insertIndex draggedItem removed
      ({ s with draggedIndex := none, dragOverIndex := none }, some updatedGroup)

/-! ### Concrete instances (used to evaluate the theorems on closed inputs) -/

/-- The schema from §8 of the spec: `mode` a dropdown defaulting to
`"fast"`, `tags` an array defaulting to `[]`, `verbose` a boolean defaulting
to `false`. -/
def exampleSchemaArgs : List GroupEditorArgument :=
  [⟨"mode", true, none, none, .dropdown ["fast", "slow"] (some (some "fast"))⟩,
   ⟨"tags", false, none, none, .array (some (some []))⟩,
   ⟨"verbose", false, none, none, .boolean (some (some false))⟩]

/-- A concrete editor over `Nat` directives whose `updateDirective` returns a
one-element group recording how many parameters it received. -/
def exampleEditor : GroupEditorDef Nat :=
  { arguments := exampleSchemaArgs,
    updateDirective := fun ps => ⟨[ps.length]⟩ }

/-- A concrete transient state with an active drag and a pending delete. -/
def sampleState : GroupState :=
  { isExpanded := true, draggedIndex := some 0, dragOverIndex := some 2,
    deleteConfirmIndex := some 1, shouldScrollToNew := false }

/-! ### Association-map lemmas -/

theorem assocGet_assocSet_self {β : Type} (m : AssocMap β) (k : String) (v : β) :
    assocGet (assocSet m k v) k = some v := by
  induction m with
  | nil => simp [assocSet, assocGet, List.find?]
  | cons p rest ih =>
    by_cases h : p.1 = k
    · simp [assocSet, h, assocGet, List.find?]
    · simpa [assocSet, h, assocGet, List.find?] using ih

theorem assocGet_cons {β : Type} (p : String × β) (m : AssocMap β) (k : String) :
    assocGet (p :: m) k = if p.1 = k then some p.2 else assocGet m k := by
  by_cases h : p.1 = k <;> simp [assocGet, List.find?, h]

theorem assocGet_assocSet_ne {β : Type} (m : AssocMap β) (k k' : String) (v : β)
    (h : k' ≠ k) : assocGet (assocSet m k v) k' = assocGet m k' := by
  have hkk' : ¬(k = k') := fun hk => h hk.symm
  induction m with
  | nil =>
    show assocGet [(k, v)] k' = assocGet [] k'
    rw [assocGet_cons, if_neg hkk']
  | cons p rest ih =>
    by_cases hp : p.1 = k
    · have h1 : assocSet (p :: rest) k v = (k, v) :: rest := by simp [assocSet, hp]
      rw [h1, assocGet_cons, assocGet_cons, if_neg hkk',
        if_neg (fun hc => hkk' (hp.symm.trans hc))]
    · have h1 : assocSet (p :: rest) k v = p :: assocSet rest k v := by simp [assocSet, hp]
      rw [h1, assocGet_cons, assocGet_cons, ih]

theorem assocGet_of_forall_ne {β : Type} (m : AssocMap β) (k : String)
    (h : ∀ p ∈ m, p.1 ≠ k) : assocGet m k = none := by
  induction m with
  | nil => rfl
  | cons p rest ih =>
    have hp : p.1 ≠ k := h p (by simp)
    simpa [assocGet, List.find?, hp] using ih (fun q hq => h q (by simp [hq]))

theorem getGroupEditor_applyRegistrations_of_not_mem {β : Type} (regs : List (String × β))
    (m : Registry β) (name : String) (h : name ∉ regs.map Prod.fst) :
    getGroupEditor (applyRegistrations regs m) name = getGroupEditor m name := by
  induction regs generalizing m with
  | nil => rfl
  | cons r rest ih =>
    have hne : name ≠ r.1 := by
      intro he
      exact h (by simp [he])
    have hrest : name ∉ rest.map Prod.fst := fun hm => h (by simp [hm])
    calc getGroupEditor (applyRegistrations (r :: rest) m) name
        = getGroupEditor (applyRegistrations rest (registerGroupEditor m r.1 r.2)) name := rfl
      _ = getGroupEditor (registerGroupEditor m r.1 r.2) name := ih _ hrest
      _ = getGroupEditor m name := assocGet_assocSet_ne m r.1 name r.2 hne

/-! ### List-manipulation lemmas -/

theorem getD_eq_getElem {α : Type} (l : List α) (i : Nat) (d : α) (h : i < l.length) :
    l.getD i d = l[i] := by
  rw [List.getD_eq_getElem?_getD, List.getElem?_eq_getElem h]
  rfl

theorem filterIdxAux_of_out {α : Type} (index : Int) (g : List α) :
    ∀ n : Int, index < n ∨ n + g.length ≤ index →
      filterIdxAux (fun i _ => i != index) n g = g := by
  induction g with
  | nil => intro n _; rfl
  | cons a l ih =>
    intro n h
    simp only [List.length_cons] at h
    have hne : (n != index) = true := by
      simp only [bne_iff_ne, ne_eq]
      omega
    rw [filterIdxAux, if_pos hne, ih (n + 1) (by push_cast at h ⊢; omega)]

theorem filterIdxAux_erase {α : Type} (index : Int) (g : List α) :
    ∀ n : Int, n ≤ index → index < n + g.length →
      filterIdxAux (fun i _ => i != index) n g = g.eraseIdx (index - n).toNat := by
  induction g with
  | nil =>
    intro n h1 h2
    exfalso
    simp only [List.length_nil] at h2
    omega
  | cons a l ih =>
    intro n h1 h2
    simp only [List.length_cons] at h2
    by_cases he : n = index
    · have hfalse : ¬((n != index) = true) := by simp [he]
      rw [filterIdxAux, if_neg hfalse, filterIdxAux_of_out index l (n + 1) (by omega)]
      have h0 : (index - n).toNat = 0 := by omega
      rw [h0]
      rfl
    · have hne : (n != index) = true := by
        simp only [bne_iff_ne, ne_eq]
        omega
      rw [filterIdxAux, if_pos hne, ih (n + 1) (by omega) (by push_cast at h2 ⊢; omega)]
      have hpos : (index - n).toNat = (index - (n + 1)).toNat + 1 := by omega
      rw [hpos, List.eraseIdx_cons_succ]

theorem jsSpliceInsert_eq_insertIdx {α : Type} (a : α) :
    ∀ (n : Nat) (l : List α), n ≤ l.length → jsSpliceInsert n a l = l.insertIdx n a := by
  intro n
  induction n with
  | zero => intro l _; simp [jsSpliceInsert, List.insertIdx_zero]
  | succ n ih =>
    intro l h
    match l with
    | [] => simp at h
    | b :: t =>
      show (b :: t).take (n + 1) ++ a :: (b :: t).drop (n + 1) = (b :: t).insertIdx (n + 1) a
      simp only [List.take_succ_cons, List.drop_succ_cons, List.cons_append,
        List.insertIdx_succ_cons]
      rw [← ih t (by simpa using h)]
      rfl

/-! ### Claim theorems -/

/-- C9: replacing the `i`-th child via the per-item change handler reports a
sequence of the same length whose element at `i` is the new directive and
whose elements at every other position are unchanged. -/
theorem handleDirectiveChange_frame {α : Type} (g : List α) (i : Nat) (d : α)
    (hi : i < g.length) :
    (handleDirectiveChange g i d).length = g.length ∧
    (handleDirectiveChange g i d)[i]? = some d ∧
    ∀ k, k ≠ i → (handleDirectiveChange g i d)[k]? = g[k]? := by
  refine ⟨by simp [handleDirectiveChange], ?_, ?_⟩
  · rw [handleDirectiveChange, List.getElem?_set_self hi]
  · intro k hk
    rw [handleDirectiveChange, List.getElem?_set_ne (fun h => hk h.symm)]

theorem handleDirectiveChange_frame_witness :
    (handleDirectiveChange ([1, 2, 3] : List Nat) 1 9).length = ([1, 2, 3] : List Nat).length ∧
    (handleDirectiveChange ([1, 2, 3] : List Nat) 1 9)[1]? = some 9 ∧
    ∀ k, k ≠ 1 → (handleDirectiveChange ([1, 2, 3] : List Nat) 1 9)[k]? =
      ([1, 2, 3] : List Nat)[k]? :=
  handleDirectiveChange_frame [1, 2, 3] 1 9 (by decide)

/-- C10: deletion is total over all integer indices — for an index outside
`[0, len)` the reported sequence equals the input element-wise and the
pending-delete state is still cleared. -/
theorem removeDirective_out_of_range {α : Type} (s : GroupState) (g : List α) (index : Int)
    (h : index < 0 ∨ (g.length : Int) ≤ index) :
    (removeDirective s g index).2 = g ∧
    (∀ k : Nat, (removeDirective s g index).2[k]? = g[k]?) ∧
    (removeDirective s g index).1.deleteConfirmIndex = none := by
  have heq : (removeDirective s g index).2 = g :=
    filterIdxAux_of_out index g 0 (by omega)
  exact ⟨heq, fun k => by rw [heq], rfl⟩

theorem removeDirective_out_of_range_witness :
    (removeDirective sampleState ([4, 5] : List Nat) (-1)).2 = [4, 5] ∧
    (∀ k : Nat, (removeDirective sampleState ([4, 5] : List Nat) (-1)).2[k]? =
      ([4, 5] : List Nat)[k]?) ∧
    (removeDirective sampleState ([4, 5] : List Nat) (-1)).1.deleteConfirmIndex = none :=
  removeDirective_out_of_range sampleState [4, 5] (-1) (by decide)

/-- C4: with a pending delete at an in-range index `i`, confirming reports
the sequence with the element at `i` removed (length shrinks by one) and
clears the pending index; cancelling reports nothing and changes only the
pending index. -/
theorem confirmDelete_cancelDelete_spec {α : Type} (s : GroupState) (g : List α) (i : Nat)
    (hp : s.deleteConfirmIndex = some i) (hi : i < g.length) :
    ((removeDirective s g (i : Int)).2.length = g.length - 1 ∧
     (removeDirective s g (i : Int)).2 = g.eraseIdx i ∧
     (removeDirective s g (i : Int)).1.deleteConfirmIndex = none) ∧
    ((cancelDelete α s).2 = none ∧
     (cancelDelete α s).1.deleteConfirmIndex = none ∧
     (cancelDelete α s).1.isExpanded = s.isExpanded ∧
     (cancelDelete α s).1.draggedIndex = s.draggedIndex ∧
     (cancelDelete α s).1.dragOverIndex = s.dragOverIndex ∧
     (cancelDelete α s).1.shouldScrollToNew = s.shouldScrollToNew) := by
  have herase : (removeDirective s g (i : Int)).2 = g.eraseIdx i := by
    show filterIdxAux _ 0 g = _
    rw [filterIdxAux_erase (i : Int) g 0 (by omega) (by omega)]
    congr 1
  refine ⟨⟨?_, herase, rfl⟩, rfl, rfl, rfl, rfl, rfl, rfl⟩
  rw [herase, List.length_eraseIdx_of_lt hi]

theorem confirmDelete_cancelDelete_spec_witness :
    (((removeDirective sampleState ([4, 5, 6] : List Nat) ((1 : Nat) : Int)).2.length =
        ([4, 5, 6] : List Nat).length - 1 ∧
      (removeDirective sampleState ([4, 5, 6] : List Nat) ((1 : Nat) : Int)).2 =
        ([4, 5, 6] : List Nat).eraseIdx 1 ∧
      (removeDirective sampleState ([4, 5, 6] : List Nat)
        ((1 : Nat) : Int)).1.deleteConfirmIndex = none) ∧
     ((cancelDelete Nat sampleState).2 = none ∧
      (cancelDelete Nat sampleState).1.deleteConfirmIndex = none ∧
      (cancelDelete Nat sampleState).1.isExpanded = sampleState.isExpanded ∧
      (cancelDelete Nat sampleState).1.draggedIndex = sampleState.draggedIndex ∧
      (cancelDelete Nat sampleState).1.dragOverIndex = sampleState.dragOverIndex ∧
      (cancelDelete Nat sampleState).1.shouldScrollToNew = sampleState.shouldScrollToNew)) :=
  confirmDelete_cancelDelete_spec sampleState [4, 5, 6] 1 (by decide) (by decide)

/-- C5: `add(d)` with no index appends; `add(d, 0)` prepends; `add(d, k)`
for `0 ≤ k ≤ len` yields a sequence of length `len + 1` with `d` at
position `k` and the relative order of the original elements preserved. -/
theorem addDirective_spec {α : Type} (s : GroupState) (g : List α) (d : α) :
    (addDirective s g d none).2 = g ++ [d] ∧
    (addDirective s g d (some 0)).2 = d :: g ∧
    ∀ k, k ≤ g.length →
      (addDirective s g d (some k)).2.length = g.length + 1 ∧
      (addDirective s g d (some k)).2[k]? = some d ∧
      (∀ j, j < k → (addDirective s g d (some k)).2[j]? = g[j]?) ∧
      (∀ j, k ≤ j → (addDirective s g d (some k)).2[j + 1]? = g[j]?) := by
  refine ⟨rfl, rfl, ?_⟩
  intro k hk
  have hu : (addDirective s g d (some k)).2 = g.take k ++ d :: g.drop k := rfl
  have htk : (g.take k).length = k := by
    simp [List.length_take, Nat.min_eq_left hk]
  refine ⟨?_, ?_, ?_, ?_⟩
  · rw [hu]
    simp only [List.length_append, List.length_cons, List.length_drop, htk]
    omega
  · rw [hu, List.getElem?_append_right (by omega), htk, Nat.sub_self]
    simp
  · intro j hj
    rw [hu, List.getElem?_append_left (by omega), List.getElem?_take_of_lt hj]
  · intro j hj
    rw [hu, List.getElem?_append_right (by omega), htk]
    have h2 : j + 1 - k = (j - k) + 1 := by omega
    rw [h2, List.getElem?_cons_succ, List.getElem?_drop]
    congr 1
    omega

theorem addDirective_spec_witness :
    ((addDirective sampleState ([1, 2, 3] : List Nat) 9 none).2 = [1, 2, 3] ++ [9]) ∧
    ((addDirective sampleState ([1, 2, 3] : List Nat) 9 (some 2)).2[2]? = some 9) ∧
    ((addDirective sampleState ([1, 2, 3] : List Nat) 9 (some 2)).2[1]? =
      ([1, 2, 3] : List Nat)[1]?) ∧
    ((addDirective sampleState ([1, 2, 3] : List Nat) 9 (some 2)).2[3]? =
      ([1, 2, 3] : List Nat)[2]?) := by
  have h := addDirective_spec sampleState ([1, 2, 3] : List Nat) 9
  have h2 := h.2.2 2 (by decide)
  exact ⟨h.1, h2.2.1, h2.2.2.1 1 (by decide), h2.2.2.2 2 (by decide)⟩

/-- Correctness of the JS destructuring swap used by `moveDirective`: after
`[g[i], g[j]] = [g[j], g[i]]` the length is unchanged, positions `i` and `j`
hold each other's old values, and every other position is unchanged. -/
theorem swap_getElem? {α : Type} [Inhabited α] (g : List α) (i j : Nat) (hi : i < g.length)
    (hj : j < g.length) :
    ((g.set i (g.getD j default)).set j (g.getD i default)).length = g.length ∧
    ((g.set i (g.getD j default)).set j (g.getD i default))[j]? = g[i]? ∧
    ((g.set i (g.getD j default)).set j (g.getD i default))[i]? = g[j]? ∧
    ∀ k, k ≠ i → k ≠ j →
      ((g.set i (g.getD j default)).set j (g.getD i default))[k]? = g[k]? := by
  have hgi : g.getD i default = g[i] := getD_eq_getElem g i default hi
  have hgj : g.getD j default = g[j] := getD_eq_getElem g j default hj
  refine ⟨by simp, ?_, ?_, ?_⟩
  · rw [List.getElem?_set_self (by simpa using hj), hgi, List.getElem?_eq_getElem hi]
  · by_cases hij : i = j
    · subst hij
      rw [List.getElem?_set_self (by simpa using hi), hgi, List.getElem?_eq_getElem hi]
    · rw [List.getElem?_set_ne (fun h => hij h.symm), List.getElem?_set_self hi, hgj,
        List.getElem?_eq_getElem hj]
  · intro k hki hkj
    rw [List.getElem?_set_ne (fun h => hkj h.symm), List.getElem?_set_ne (fun h => hki h.symm)]

/-- C3: `move(i, up)` targets `i - 1` and `move(i, down)` targets `i + 1`;
a target outside `[0, len)` is a no-op (no report); otherwise the reported
sequence has the elements at `i` and the target swapped and everything else
unchanged. -/
theorem moveDirective_spec {α : Type} [Inhabited α] (g : List α) (i : Nat)
    (hi : i < g.length) :
    (i = 0 → moveDirective g i .up = none) ∧
    (i ≠ 0 → ∃ l, moveDirective g i .up = some l ∧ l.length = g.length ∧
      l[i - 1]? = g[i]? ∧ l[i]? = g[i - 1]? ∧
      ∀ k, k ≠ i → k ≠ i - 1 → l[k]? = g[k]?) ∧
    (i + 1 = g.length → moveDirective g i .down = none) ∧
    (i + 1 < g.length → ∃ l, moveDirective g i .down = some l ∧ l.length = g.length ∧
      l[i + 1]? = g[i]? ∧ l[i]? = g[i + 1]? ∧
      ∀ k, k ≠ i → k ≠ i + 1 → l[k]? = g[k]?) := by
  refine ⟨fun h0 => ?_, fun h0 => ?_, fun hd => ?_, fun hd => ?_⟩
  · subst h0
    simp only [moveDirective]
    rw [if_pos (by omega)]
  · have hj : i - 1 < g.length := by omega
    have hup : moveDirective g i .up =
        some ((g.set i (g.getD (i - 1) default)).set (i - 1) (g.getD i default)) := by
      simp only [moveDirective]
      rw [if_neg (by omega)]
      have htn : ((i : Int) - 1).toNat = i - 1 := by omega
      rw [htn]
    obtain ⟨hl, hj', hi', hk⟩ := swap_getElem? g i (i - 1) hi hj
    exact ⟨_, hup, hl, hj', hi', hk⟩
  · simp only [moveDirective]
    rw [if_pos (by omega)]
  · have hj : i + 1 < g.length := hd
    have hdown : moveDirective g i .down =
        some ((g.set i (g.getD (i + 1) default)).set (i + 1) (g.getD i default)) := by
      simp only [moveDirective]
      rw [if_neg (by omega)]
      have htn : ((i : Int) + 1).toNat = i + 1 := by omega
      rw [htn]
    obtain ⟨hl, hj', hi', hk⟩ := swap_getElem? g i (i + 1) hi hj
    exact ⟨_, hdown, hl, hj', hi', hk⟩

theorem moveDirective_spec_witness :
    (moveDirective ([1, 2, 3] : List Nat) 0 .up = none) ∧
    (∃ l, moveDirective ([1, 2, 3] : List Nat) 2 .up = some l ∧
      l.length = ([1, 2, 3] : List Nat).length ∧
      l[1]? = ([1, 2, 3] : List Nat)[2]? ∧ l[2]? = ([1, 2, 3] : List Nat)[1]? ∧
      ∀ k, k ≠ 2 → k ≠ 1 → l[k]? = ([1, 2, 3] : List Nat)[k]?) ∧
    (moveDirective ([1, 2, 3] : List Nat) 2 .down = none) := by
  refine ⟨(moveDirective_spec ([1, 2, 3] : List Nat) 0 (by decide)).1 rfl, ?_, ?_⟩
  · exact (moveDirective_spec ([1, 2, 3] : List Nat) 2 (by decide)).2.1 (by decide)
  · exact (moveDirective_spec ([1, 2, 3] : List Nat) 2 (by decide)).2.2.1 (by decide)

/-- C1: with drag source `a` and drop target `b`, both in range: for
`a < b` the drop reports the sequence obtained by removing the element at
`a` and inserting it at `b - 1`; for `a > b`, inserting at `b`; for
`a = b` or with no active drag source there is no report; both drag indices
are cleared in every case. -/
theorem handleDrop_spec {α : Type} [Inhabited α] (s : GroupState) (g : List α) (a b : Nat)
    (ha : a < g.length) (hb : b < g.length) (hs : s.draggedIndex = some a) :
    ((handleDrop s g b).1.draggedIndex = none ∧ (handleDrop s g b).1.dragOverIndex = none) ∧
    (a < b → (handleDrop s g b).2 = some ((g.eraseIdx a).insertIdx (b - 1) g[a])) ∧
    (b < a → (handleDrop s g b).2 = some ((g.eraseIdx a).insertIdx b g[a])) ∧
    (a = b → (handleDrop s g b).2 = none) ∧
    (∀ s' : GroupState, s'.draggedIndex = none → (handleDrop s' g b).2 = none ∧
      (handleDrop s' g b).1.draggedIndex = none ∧
      (handleDrop s' g b).1.dragOverIndex = none) := by
  have hlen : (g.eraseIdx a).length = g.length - 1 := List.length_eraseIdx_of_lt ha
  have hget : g.getD a default = g[a] := getD_eq_getElem g a default ha
  refine ⟨?_, fun hab => ?_, fun hba => ?_, fun hab => ?_, fun s' hs' => ?_⟩
  · simp only [handleDrop, hs]
    by_cases hab : a = b <;> simp [hab]
  · simp only [handleDrop, hs]
    rw [if_neg (by omega)]
    simp only
    rw [if_pos hab, hget, jsSpliceInsert_eq_insertIdx g[a] (b - 1) (g.eraseIdx a) (by omega)]
  · simp only [handleDrop, hs]
    rw [if_neg (by omega)]
    simp only
    rw [if_neg (by omega), hget, jsSpliceInsert_eq_insertIdx g[a] b (g.eraseIdx a) (by omega)]
  · simp [handleDrop, hs, hab]
  · simp [handleDrop, hs']

theorem handleDrop_spec_witness :
    ((handleDrop sampleState ([1, 2, 3] : List Nat) 2).1.draggedIndex = none ∧
     (handleDrop sampleState ([1, 2, 3] : List Nat) 2).1.dragOverIndex = none) ∧
    ((handleDrop sampleState ([1, 2, 3] : List Nat) 2).2 =
      some ((([1, 2, 3] : List Nat).eraseIdx 0).insertIdx 1 ([1, 2, 3] : List Nat)[0])) := by
  have h := handleDrop_spec sampleState ([1, 2, 3] : List Nat) 0 2 (by decide) (by decide) rfl
  exact ⟨h.1, h.2.1 (by decide)⟩

/-- C2 (counterexample): a boolean field whose `defaultValue` key is absent
falls back to the empty string, not to `false` as the claim states. -/
theorem getDefaultValue_missing_boolean_counterexample :
    currentValue [] ⟨"verbose", true, none, none, .boolean none⟩ = .str "" ∧
    Value.str "" ≠ Value.bool false := by
  exact ⟨rfl, by decide⟩

/-- C2 (amended): when the `defaultValue` key is present but holds
`undefined`, the fallback is the type-determined empty value (`false` for
boolean, `""` for text, `[]` for array); when the key is absent entirely —
and for every dropdown field — the fallback is the empty string regardless
of type. -/
theorem getDefaultValue_fallback (name : String) (req : Bool) (desc : Option String)
    (adv : Option Bool) :
    currentValue [] ⟨name, req, desc, adv, .boolean (some none)⟩ = .bool false ∧
    (∀ m, currentValue [] ⟨name, req, desc, adv, .text (some none) m⟩ = .str "") ∧
    currentValue [] ⟨name, req, desc, adv, .array (some none)⟩ = .list [] ∧
    currentValue [] ⟨name, req, desc, adv, .boolean none⟩ = .str "" ∧
    (∀ m, currentValue [] ⟨name, req, desc, adv, .text none m⟩ = .str "") ∧
    currentValue [] ⟨name, req, desc, adv, .array none⟩ = .str "" ∧
    (∀ opts dv, currentValue [] ⟨name, req, desc, adv, .dropdown opts dv⟩ = .str "") :=
  ⟨rfl, fun _ => rfl, rfl, rfl, fun _ => rfl, rfl, fun _ _ => rfl⟩

/-- C6: mounting the simplified editor with empty custom params fires the
auto-initialization effect exactly once — it invokes the schema's update
function with the declared defaults, reports the resulting directive list
and those defaults upward, and sets the initialized flag so later runs
report nothing; on the §8 example schema the reported defaults are
`{mode: "fast", tags: [], verbose: false}`. -/
theorem autoInitEffect_spec {α : Type} (e : GroupEditorDef α) (cp : Params) :
    ((autoInitEffect e false []).1 =
      some ((e.updateDirective (getDefaultParams e.arguments)).group,
        getDefaultParams e.arguments) ∧
     (autoInitEffect e false []).2 = true) ∧
    ((autoInitEffect e true cp).1 = none ∧ (autoInitEffect e true cp).2 = true) ∧
    getDefaultParams exampleSchemaArgs =
      [("mode", .str "fast"), ("tags", .list []), ("verbose", .bool false)] :=
  ⟨⟨rfl, rfl⟩, ⟨rfl, rfl⟩, by decide⟩

/-- C7: editing field `k` to `v` reports the params equal to the current
mapping with only `k` rebound to `v`, together with the directive list
produced by the update function on that merged mapping. -/
theorem updateParameter_spec {α : Type} (e : GroupEditorDef α) (P : Params) (k : String)
    (v : Value) :
    assocGet (updateParameter e P k v).2 k = some v ∧
    (∀ k', k' ≠ k → assocGet (updateParameter e P k v).2 k' = assocGet P k') ∧
    (updateParameter e P k v).1 = (e.updateDirective (updateParameter e P k v).2).group :=
  ⟨assocGet_assocSet_self P k v, fun k' hk' => assocGet_assocSet_ne P k k' v hk', rfl⟩

theorem updateParameter_spec_witness :
    assocGet (updateParameter exampleEditor
        [("mode", .str "fast"), ("tags", .list [])] "verbose" (.bool true)).2
      "verbose" = some (.bool true) ∧
    assocGet (updateParameter exampleEditor
        [("mode", .str "fast"), ("tags", .list [])] "verbose" (.bool true)).2
      "mode" = assocGet [("mode", .str "fast"), ("tags", .list [])] "mode" := by
  have h := updateParameter_spec exampleEditor
    [("mode", .str "fast"), ("tags", .list [])] "verbose" (.bool true)
  exact ⟨h.1, h.2.1 "mode" (by decide)⟩

/-- C8: a never-registered name looks up as absent; after registration the
name looks up to the registered editor; registering the same name twice
leaves the later registration (last writer wins). -/
theorem registry_spec {β : Type} (m : Registry β) (name : String) (e e1 e2 : β)
    (regs : List (String × β)) (h : name ∉ regs.map Prod.fst) :
    getGroupEditor (applyRegistrations regs []) name = none ∧
    getGroupEditor (registerGroupEditor m name e) name = some e ∧
    getGroupEditor (registerGroupEditor (registerGroupEditor m name e1) name e2) name =
      some e2 := by
  refine ⟨?_, assocGet_assocSet_self m name e, assocGet_assocSet_self _ name e2⟩
  rw [getGroupEditor_applyRegistrations_of_not_mem regs [] name h]
  rfl

theorem registry_spec_witness :
    getGroupEditor (applyRegistrations [("alpha", 1), ("beta", 2)] ([] : Registry Nat))
      "gamma" = none ∧
    getGroupEditor (registerGroupEditor ([("x", 0)] : Registry Nat) "gamma" 5) "gamma" =
      some 5 ∧
    getGroupEditor (registerGroupEditor
      (registerGroupEditor ([("x", 0)] : Registry Nat) "gamma" 6) "gamma" 7) "gamma" =
      some 7 :=
  registry_spec [("x", 0)] "gamma" 5 6 7 [("alpha", 1), ("beta", 2)] (by decide)

end GroupUI
